import Mathlib

/-!
Verification of the conversion dispatch engine in
`src/app/api/converter/route.ts`.

JavaScript strings that the engine splits and joins (record keys, text
lines) are modelled as `List Char`; JavaScript objects are modelled as
association lists in insertion order, which is the `for...in` iteration
order for the string keys produced here.  Property assignment on an
object is insert-or-update (`insertJS`), matching JS semantics where an
update keeps the key's original position.
-/

set_option maxHeartbeats 1000000
set_option maxRecDepth 100000

/-- A JavaScript string used as a record key or path, as a list of chars. -/
abbrev Key := List Char

/-- A JavaScript (JSON-like) runtime value as the engine sees it:
primitives, arrays, and objects (association lists in insertion order).
Numbers are modelled as integers; none of the engine's record logic does
arithmetic on them. -/
inductive JVal where
  | str (s : String)
  | num (n : Int)
  | bool (b : Bool)
  | null
  | arr (xs : List JVal)
  | obj (fields : List (Key × JVal))

instance : Inhabited JVal := ⟨JVal.null⟩

/-- JS truthiness test on a value (`!x` in the source): the falsy values
among those representable here are `0`, `""`, `false` and `null`. -/
def falsy : JVal → Bool
  | .str s => s = ""
  | .num n => n = 0
  | .bool b => !b
  | .null => true
  | .arr _ => false
  | .obj _ => false

/-- Is the value an object (a non-array, non-null `typeof "object"`)? -/
def isObj : JVal → Bool
  | .obj _ => true
  | _ => false

/-- Is the value a primitive (neither object nor array)? -/
def isPrim : JVal → Bool
  | .obj _ => false
  | .arr _ => false
  | _ => true

/-- JS property write `o[k] = v` on an object: update in place if the key
exists, else append at the end of the iteration order. -/
def insertJS (l : List (Key × JVal)) (k : Key) (v : JVal) : List (Key × JVal) :=
  if l.any (fun p => p.1 == k) then
    l.map (fun p => if p.1 == k then (k, v) else p)
  else
    l ++ [(k, v)]

/-- JS property read `o[k]` on an object: `none` models `undefined`. -/
def getKey (l : List (Key × JVal)) (k : Key) : Option JVal :=
  (l.find? (fun p => p.1 == k)).map (·.2)

/-- `Object.assign(dst, src)`: write every entry of `src` into `dst` in
iteration order. -/
def assignAll (dst src : List (Key × JVal)) : List (Key × JVal) :=
  src.foldl (fun a p => insertJS a p.1 p.2) dst

/-- Loop body of `flattenObject` (route.ts lines 19-35): iterate the
fields in order, accumulating into `acc`; a nested non-null non-array
object recurses with the dotted key and its result is merged with
`Object.assign`; every other value is written under the dotted key.
The new key is `prefix ? prefix + "." + key : key` — note the JS
truthiness test, under which an empty-string prefix is treated as
absent. -/
def flattenGo : List (Key × JVal) → Key → List (Key × JVal) → List (Key × JVal)
  | [], _, acc => acc
  | (k, v) :: rest, pre, acc =>
    let newKey := if pre = [] then k else pre ++ '.' :: k
    match v with
    | .obj sub => flattenGo rest pre (assignAll acc (flattenGo sub newKey []))
    | _ => flattenGo rest pre (insertJS acc newKey v)
termination_by fields _ _ => sizeOf fields
decreasing_by
  all_goals simp_wf
  all_goals simp_arith

/-- `flattenObject(obj, prefix = "")` from route.ts lines 19-35, applied
to an object given by its fields. -/
def flattenObject (fields : List (Key × JVal)) (pre : Key) : List (Key × JVal) :=
  flattenGo fields pre []

/-- `s.split(sep)` on a JS string for a one-character separator: split on
every occurrence; the result is never empty, and the empty string splits
to `[""]`. -/
def splitOnChar (sep : Char) : Key → List Key
  | [] => [[]]
  | c :: rest =>
    if c = sep then [] :: splitOnChar sep rest
    else
      match splitOnChar sep rest with
      | s :: ss => (c :: s) :: ss
      | [] => [[c]]

/-- `key.split(".")` from route.ts line 43. -/
def splitDot : Key → List Key := splitOnChar '.'

/-- One key-value pair of `unflattenObject` (route.ts lines 41-55),
given the already-split path: walk/create objects for every segment but
the last, then assign at the last segment.  The walk `if (!current[k])
current[k] = {}; current = current[k]` descends into an existing object,
replaces a falsy value by a fresh object, and otherwise walks into a
truthy non-object: for a primitive the next property assignment then
throws a `TypeError` (the file is an ES module, hence strict mode),
modelled as `none`.  Walking into an array (which would attach string
properties to the array object) is also modelled as `none`; it is
unreachable for the flat records of scalars this engine unflattens. -/
def setPath : List Key → List (Key × JVal) → JVal → Option (List (Key × JVal))
  | [], _, _ => none
  | [k], fields, v => some (insertJS fields k v)
  | k :: rest :: more, fields, v =>
    match getKey fields k with
    | some (.obj sub) =>
      (setPath (rest :: more) sub v).map (fun sub2 => insertJS fields k (.obj sub2))
    | some w =>
      if falsy w then
        (setPath (rest :: more) [] v).map (fun sub2 => insertJS fields k (.obj sub2))
      else none
    | none =>
      (setPath (rest :: more) [] v).map (fun sub2 => insertJS fields k (.obj sub2))

/-- `unflattenObject` from route.ts lines 38-59: fold over the flat
record's entries in iteration order, splitting each key on `"."` and
assigning along the path; `none` models the strict-mode `TypeError`
described at `setPath`. -/
def unflattenObject (flat : List (Key × JVal)) : Option (List (Key × JVal)) :=
  flat.foldlM (fun acc p => setPath (splitDot p.1) acc p.2) []

/-- Does the key avoid the literal `'.'` character? -/
def noDotKey (k : Key) : Bool := !(k.contains '.')

/-- Do all keys of the record, at every nesting depth, avoid `'.'`?
Arrays are leaves for `flattenObject`, so their contents carry no keys
in the sense of the structural transform. -/
def noDotFields : List (Key × JVal) → Bool
  | [] => true
  | (k, v) :: rest =>
    noDotKey k &&
    (match v with
     | .obj sub => noDotFields sub
     | _ => true) &&
    noDotFields rest
termination_by fields => sizeOf fields
decreasing_by
  all_goals simp_wf
  all_goals simp_arith [sizeOf]

/-- Well-formedness of a `Record` for the round-trip law: at every
nesting depth, keys are distinct (it is a mapping), nonempty and
dot-free, and no value is an empty nested record. -/
def goodFields : List (Key × JVal) → Bool
  | [] => true
  | (k, v) :: rest =>
    decide (k ≠ []) && noDotKey k && !(rest.any (fun p => p.1 == k)) &&
    (match v with
     | .obj sub => !sub.isEmpty && goodFields sub
     | _ => true) &&
    goodFields rest
termination_by fields => sizeOf fields
decreasing_by
  all_goals simp_wf
  all_goals simp_arith [sizeOf]

/-- The keys of an object, in iteration order. -/
def keysOf (l : List (Key × JVal)) : List Key := l.map (·.1)

/-- Join path segments with `'.'` — the inverse of `splitDot` used to
state what `flattenObject` produces. -/
def joinSegs : List Key → Key
  | [] => []
  | [k] => k
  | k :: rest => k ++ '.' :: joinSegs rest

/-- Are all segments of a path nonempty and dot-free? -/
def goodSegs (p : List Key) : Bool := p.all (fun s => decide (s ≠ []) && noDotKey s)

/-- The root-to-leaf paths of a record together with the leaf values, in
depth-first iteration order: the abstract description of what
`flattenObject` enumerates (a nested object contributes its own leaves
prefixed with its key; anything else is a leaf). -/
def pvs : List (Key × JVal) → List (List Key × JVal)
  | [] => []
  | (k, v) :: rest =>
    (match v with
     | .obj sub => (pvs sub).map (fun q => (k :: q.1, q.2))
     | _ => [([k], v)]) ++ pvs rest
termination_by fields => sizeOf fields
decreasing_by
  all_goals simp_wf
  all_goals simp_arith [sizeOf]

/-- `text.split("\n")` from route.ts line 205. -/
def splitNl : Key → List Key := splitOnChar '\n'

/-- `line.trim()`: strip leading and trailing whitespace. -/
def trimJ (l : Key) : Key := ((l.dropWhile Char.isWhitespace).reverse.dropWhile Char.isWhitespace).reverse

/-- `/[.!?]$/.test(trimmed)`: does the line end in sentence-terminal
punctuation? -/
def endsTerm (t : Key) : Bool :=
  match t.getLast? with
  | some c => c = '.' || c = '!' || c = '?'
  | none => false

/-- The label-line test of route.ts line 214: shorter than 60 characters,
no terminal punctuation, and no space. -/
def labelLine (t : Key) : Bool :=
  decide (t.length < 60) && !endsTerm t && !(t.contains ' ')

/-- `trimmed.startsWith("- ") || trimmed.startsWith("* ")`. -/
def bulletStart (t : Key) : Bool :=
  match t with
  | '-' :: ' ' :: _ => true
  | '*' :: ' ' :: _ => true
  | _ => false

/-- The line classification of route.ts lines 208-221: each source line
pushes exactly one output line — empty for a blank line, `## ` plus the
trimmed line for a label line, and the trimmed line itself both for
bullet lines and for everything else. -/
def lineOut (line : Key) : Key :=
  let trimmed := trimJ line
  if trimmed = [] then []
  else if labelLine trimmed then '#' :: '#' :: ' ' :: trimmed
  else if bulletStart trimmed then trimmed
  else trimmed

/-- The TXT→Markdown transform of route.ts lines 202-222: a heading from
the title, a blank line, the fixed provenance line, a blank line, then
one output line per source line, all joined with newlines. -/
def structureText (text name : Key) : Key :=
  let lines := splitNl text
  let header := [('#' :: ' ' :: name), [], ("Converted from text file").data, []]
  List.intercalate ['\n'] (lines.foldl (fun md line => md ++ [lineOut line]) header)

/-- JS `s.replace(pat, rep)` with a plain-string pattern: replace only
the leftmost occurrence, or return the string unchanged when the
(nonempty) pattern does not occur. -/
def replaceFirstK (s pat rep : Key) : Key :=
  if pat.isPrefixOf s then rep ++ s.drop pat.length
  else
    match s with
    | [] => []
    | c :: t => c :: replaceFirstK t pat rep

/-- `(buffer.length / 1024).toFixed(1)` in tenths of a KB: `len / 1024`
is exact in double precision for any realistic length (a power-of-two
divisor), and `toFixed(1)` rounds to the nearest tenth, half away from
zero. -/
def kbTenths (len : Nat) : Nat := (len * 10 + 512) / 1024

/-- The `"X.Y"` rendering of `(buffer.length / 1024).toFixed(1)`. -/
def kbString (len : Nat) : String :=
  toString (kbTenths len / 10) ++ "." ++ toString (kbTenths len % 10)

/-- Literal prefix of the empty-but-valid PDF report (route.ts 74-93). -/
def pdfEmptyReportPre : String :=
  "⚠️ PDF Processing Issue\n\n📄 **PDF Information:**\n• Total pages: "

/-- Literal between page count and file size in the empty-PDF report. -/
def pdfEmptyReportMid : String := "\n• File size: "

/-- Literal tail of the empty-but-valid PDF report. -/
def pdfEmptyReportPost : String :=
  "KB\n• Status: Valid PDF format\n\n❌ **Text Extraction Failed:**\nNo extractable text found in the PDF.\n\n🔍 **Possible reasons:**\n• PDF contains only images (scanned document)\n• Text is embedded as graphics\n• PDF uses complex formatting\n• Password protection or security restrictions\n\n💡 **This converter works perfectly with:**\n• Word documents (DOCX → Markdown)\n• Images (PNG, JPG conversions)\n• Spreadsheets (CSV → JSON)"

/-- The diagnostic report returned when a structurally valid PDF yields
no usable text (route.ts lines 74-93): mentions the page count and the
byte size in KB. -/
def pdfEmptyReport (pages len : Nat) : String :=
  pdfEmptyReportPre ++ toString pages ++ pdfEmptyReportMid ++ kbString len ++ pdfEmptyReportPost

/-- Literal prefix of the extraction-error report (route.ts 97-115). -/
def pdfErrorPre : String := "❌ **Unable to process PDF**\n\n**Error encountered:**\n"

/-- Literal tail of the extraction-error report. -/
def pdfErrorPost : String :=
  "\n\n**This might indicate:**\n• Corrupted file upload\n• Unsupported PDF version\n• Server processing limitations\n• Memory constraints\n\n**Solutions to try:**\n• Upload a different PDF file\n• Ensure file isn\'t password-protected\n• Try a smaller file size\n• Use alternative conversion tools\n\n**Working alternatives:**\n📝 DOCX, TXT, CSV, and image conversions work perfectly!"

/-- The report returned when the extraction capability itself throws:
the raw error message framed by likely causes and suggested actions. -/
def pdfErrorReport (msg : String) : String := pdfErrorPre ++ msg ++ pdfErrorPost

/-- Literal prefix of a successful extraction payload (route.ts 72). -/
def pdfTextPre : String := "📄 PDF Text Content:\n\n"

/-- `extractPdfText` from route.ts lines 62-117, with the call to the
opaque `pdf-parse` capability abstracted into its outcome: `.ok (text,
numpages)` when the promise resolves, `.error msg` when it throws.  Note
both degraded outcomes return an ordinary string — the internal `catch`
never rethrows. -/
def extractPdfText (pr : Except String (String × Nat)) (bufLen : Nat) : String :=
  match pr with
  | .ok (text, numpages) =>
    if text ≠ "" ∧ 0 < text.trim.length then pdfTextPre ++ text.trim
    else pdfEmptyReport numpages bufLen
  | .error msg => pdfErrorReport msg

/-- `s.toLowerCase()` (ASCII case mapping, which covers every string the
engine compares). -/
def toLowerK (s : Key) : Key := s.map Char.toLower

/-- `s.toUpperCase()` (ASCII case mapping). -/
def toUpperK (s : Key) : Key := s.map Char.toUpper

/-- `s.endsWith(pat)`. -/
def endsWithK (s pat : Key) : Bool := pat.isSuffixOf s

/-- `s.startsWith(pat)`. -/
def startsWithK (s pat : Key) : Bool := pat.isPrefixOf s

/-- The `mimeTypes` record of route.ts lines 6-16; doubles as the
whitelist gate of line 129 (`!mimeTypes[outputType]`). -/
def mimeTypes : Key → Option String := fun k =>
  if k = "md".data then some "text/markdown; charset=utf-8"
  else if k = "txt".data then some "text/plain; charset=utf-8"
  else if k = "json".data then some "application/json; charset=utf-8"
  else if k = "csv".data then some "text/csv; charset=utf-8"
  else if k = "pdf".data then some "application/pdf"
  else if k = "docx".data then some "application/vnd.openxmlformats-officedocument.wordprocessingml.document"
  else if k = "png".data then some "image/png"
  else if k = "jpg".data then some "image/jpeg"
  else if k = "jpeg".data then some "image/jpeg"
  else none

/-- The fixed whitelist of known output kinds (the domain of
`mimeTypes`). -/
def outputWhitelist : List Key :=
  ["md".data, "txt".data, "json".data, "csv".data, "pdf".data, "docx".data,
   "png".data, "jpg".data, "jpeg".data]

/-- The image-extension alternatives of the regex on route.ts line 194. -/
def imageExts : List Key :=
  [".jpg".data, ".jpeg".data, ".png".data, ".gif".data, ".bmp".data,
   ".webp".data, ".tiff".data, ".svg".data]

/-- `file.name.match(/\.(jpg|jpeg|png|gif|bmp|webp|tiff|svg)$/i)` as a
truth value: a case-insensitive image-extension suffix test. -/
def imageExtMatch (name : Key) : Bool :=
  imageExts.any (fun e => endsWithK (toLowerK name) e)

/-- `for...in` enumeration of an arbitrary value handed to
`flattenObject` at top level (route.ts lines 179/183 map it over JSON
values): objects enumerate their fields, arrays and strings their
indices, and other primitives nothing. -/
def jsToFields : JVal → List (Key × JVal)
  | .obj fields => fields
  | .arr xs => xs.enum.map (fun p => ((toString p.1).data, p.2))
  | .str s => s.data.enum.map (fun p => ((toString p.1).data, JVal.str (String.mk [p.2])))
  | _ => []

/-- A conversion request after the transport layer has read the upload:
payload bytes, source filename, declared MIME, requested output kind as
sent (case not yet normalized). -/
structure ConversionRequest where
  fileName : Key
  fileMime : Key
  outputTypeRaw : Key
  bytes : List Nat
deriving DecidableEq

/-- A produced artifact: text or binary. -/
inductive Payload where
  | text (s : String)
  | bin (b : List Nat)
deriving DecidableEq

/-- The response of the POST handler: a 200 attachment (payload,
Content-Type, suggested filename), a 400 client error, or the 500
catch-all of route.ts lines 248-267. -/
inductive ConvResult where
  | success (payload : Payload) (contentType : String) (filename : String)
  | clientError (message : String)
  | serverError (message : String)
deriving DecidableEq

/-- Result of the opaque CSV parser (`Papa.parse` with header mode):
row records plus the header field list. -/
structure PapaParsed where
  rows : List (List (Key × JVal))
  fields : List String

/-- The opaque external capabilities the engine orchestrates (spec §1:
codec libraries consumed as "given bytes, produce text/bytes"), plus
byte decoding and JSON (de)serialization.  Modelling them as functions
asserts only that each library call is deterministic. -/
structure Externals where
  decodeUtf8 : List Nat → String
  mammothRawText : List Nat → Except String String
  pdfParse : List Nat → Except String (String × Nat)
  papaParse : String → PapaParsed
  papaUnparse : List (List (Key × JVal)) → String
  jsonParse : String → Except String JVal
  jsonStringifyEnvelope : Key → Nat → List String → List (List (Key × JVal)) → String
  sharpPng : List Nat → Except String (List Nat)
  sharpJpeg : List Nat → Except String (List Nat)

/-- Error message of route.ts line 126. -/
def noFileMsg : String := "No file uploaded"

/-- Error message of route.ts line 130 — the whitelist rejection. -/
def unsupportedOutputMsg : String := "Unsupported output type"

/-- Error message of route.ts line 187. -/
def jsonShapeMsg : String := "JSON must be an object or array of objects"

/-- The "no pipeline for this pair" rejection of route.ts lines 223-231. -/
def pairMsg (fileExt outputType : Key) : String :=
  "Conversion from " ++ String.mk (toUpperK fileExt) ++ " to " ++
    String.mk (toUpperK outputType) ++
    " is not supported. Please check the supported conversions list."

/-- The 500 catch-all body of route.ts lines 248-267, wrapping the
original error message in fixed remediation hints. -/
def serverErrorMsg (m : String) : String :=
  "Server error: " ++ m ++
    "\n\n🔍 This might be due to:\n• File upload corruption\n• Server configuration issue\n• Unsupported file format\n• Memory limitations\n\nPlease try:\n• A smaller file\n• A different file format\n• Refreshing and trying again"

/-- Stand-in for the engine-specific text of the strict-mode `TypeError`
thrown inside `unflattenObject`; the exact wording is
environment-specific and nothing in the engine inspects it. -/
def typeErrorMsg : String := "TypeError"

/-- `file.name.split(".").pop()?.toLowerCase() || "unknown"`. -/
def lastExt (name : Key) : Key :=
  let last := toLowerK ((splitDot name).getLastD [])
  if last = [] then "unknown".data else last

/-- The dispatch-and-convert cascade of route.ts lines 140-231, after
the whitelist gate: either a payload, or an early error response.
Library throws propagate to the catch of line 248 (`serverErrorMsg`). -/
def convertBody (ext : Externals) (req : ConversionRequest) (outputType : Key)
    (buffer : List Nat) : Except ConvResult Payload :=
  if outputType == "md".data && endsWithK req.fileName ".docx".data then
    match ext.mammothRawText buffer with
    | .error m => .error (.serverError (serverErrorMsg m))
    | .ok value =>
      .ok (.text ("# " ++ String.mk (replaceFirstK req.fileName ".docx".data []) ++
        "\n\nConverted from Word document\n\n" ++ value))
  else if outputType == "txt".data && endsWithK req.fileName ".pdf".data then
    .ok (.text (extractPdfText (ext.pdfParse buffer) buffer.length))
  else if outputType == "json".data && endsWithK req.fileName ".csv".data then
    let parsed := ext.papaParse (ext.decodeUtf8 buffer)
    match parsed.rows.mapM unflattenObject with
    | none => .error (.serverError (serverErrorMsg typeErrorMsg))
    | some unflattened =>
      .ok (.text (ext.jsonStringifyEnvelope req.fileName unflattened.length parsed.fields unflattened))
  else if outputType == "csv".data && endsWithK req.fileName ".json".data then
    match ext.jsonParse (ext.decodeUtf8 buffer) with
    | .error m => .error (.serverError (serverErrorMsg m))
    | .ok (.arr xs) =>
      .ok (.text (ext.papaUnparse (xs.map (fun item => flattenObject (jsToFields item) []))))
    | .ok (.obj fields) => .ok (.text (ext.papaUnparse [flattenObject fields []]))
    | .ok _ => .error (.clientError jsonShapeMsg)
  else if (outputType == "png".data || outputType == "jpg".data || outputType == "jpeg".data) &&
      (startsWithK req.fileMime "image/".data || imageExtMatch req.fileName) then
    if outputType == "png".data then
      match ext.sharpPng buffer with
      | .error m => .error (.serverError (serverErrorMsg m))
      | .ok b => .ok (.bin b)
    else
      match ext.sharpJpeg buffer with
      | .error m => .error (.serverError (serverErrorMsg m))
      | .ok b => .ok (.bin b)
  else if outputType == "md".data && endsWithK req.fileName ".txt".data then
    .ok (.text (String.mk (structureText (ext.decodeUtf8 buffer).data
      (replaceFirstK req.fileName ".txt".data []))))
  else
    .error (.clientError (pairMsg (lastExt req.fileName) outputType))

/-- `${file.name.split(".")[0]}-converted-${Date.now()}.${outputType}`. -/
def suggestedFilename (fileName : Key) (now : Nat) (outputType : Key) : String :=
  String.mk ((splitDot fileName).headD []) ++ "-converted-" ++ toString now ++ "." ++
    String.mk outputType

/-- The POST handler of route.ts lines 119-268: missing-file check,
case normalization of the requested kind, whitelist gate (both before
the payload bytes are touched), then the conversion cascade and the
200 attachment response.  `now` is `Date.now()`. -/
def postModel (ext : Externals) (now : Nat) (req : Option ConversionRequest) : ConvResult :=
  match req with
  | none => .clientError noFileMsg
  | some r =>
    let outputType := toLowerK r.outputTypeRaw
    if outputType == [] || (mimeTypes outputType).isNone then .clientError unsupportedOutputMsg
    else
      match convertBody ext r outputType r.bytes with
      | .error res => res
      | .ok converted =>
        .success converted ((mimeTypes outputType).getD "")
          (suggestedFilename r.fileName now outputType)

/-- A concrete assignment of the external capabilities, used to evaluate
the dispatcher on closed inputs (fields in declaration order). -/
def trivialExt : Externals :=
  ⟨fun _ => "", fun _ => .ok "", fun _ => .ok ("", 0), fun _ => ⟨[], []⟩,
   fun _ => "", fun _ => .error "x", fun _ _ _ _ => "", fun _ => .ok [], fun _ => .ok []⟩

/-- Externals whose PDF extraction capability throws. -/
def pdfErrExt : Externals :=
  ⟨fun _ => "", fun _ => .ok "", fun _ => .error "bad xref", fun _ => ⟨[], []⟩,
   fun _ => "", fun _ => .error "x", fun _ _ _ _ => "", fun _ => .ok [], fun _ => .ok []⟩

/-- Externals whose PDF extraction succeeds with no text on a 3-page
document. -/
def pdfEmptyExt : Externals :=
  ⟨fun _ => "", fun _ => .ok "", fun _ => .ok ("", 3), fun _ => ⟨[], []⟩,
   fun _ => "", fun _ => .error "x", fun _ _ _ _ => "", fun _ => .ok [], fun _ => .ok []⟩

/-- Erase the timestamp-bearing suggested filename from a result, for
stating determinism modulo the timestamp. -/
def stripFilename : ConvResult → ConvResult
  | .success p ct _ => .success p ct ""
  | r => r

/-! ## Basic facts about the structural transform -/

theorem assignAll_nil (acc : List (Key × JVal)) : assignAll acc [] = acc := rfl

theorem flattenGo_skip (before : List (Key × JVal)) (k : Key) (after : List (Key × JVal))
    (pre : Key) (acc : List (Key × JVal)) :
    flattenGo (before ++ (k, JVal.obj []) :: after) pre acc = flattenGo (before ++ after) pre acc := by
  induction before generalizing acc with
  | nil => simp [flattenGo, assignAll]
  | cons p before' IH =>
    obtain ⟨k', v'⟩ := p
    cases v' <;> simp only [List.cons_append, flattenGo] <;> exact IH _

/-- C10: a key whose value is an empty nested record contributes no entry
to the output of `flattenObject` — deleting such an entry from the input
record leaves the flattened output unchanged, so in particular
`flattenObject [(a, obj [])] = []` and the key is silently lost. -/
theorem flattenObject_drops_empty_record (before after : List (Key × JVal)) (k : Key) (pre : Key) :
    flattenObject (before ++ (k, JVal.obj []) :: after) pre = flattenObject (before ++ after) pre := by
  unfold flattenObject
  exact flattenGo_skip before k after pre []

/-- C4 counterexample: on the flat record `{a: 5, "a.b": 7}` the code does
not apply last-write-wins — walking the intermediate segment `a` lands on
the existing truthy scalar `5` and the subsequent property assignment
throws (modelled `none`), so the later key's implied structure does not
replace the earlier value. -/
theorem unflatten_collision_counterexample :
    unflattenObject [(['a'], JVal.num 5), (['a', '.', 'b'], JVal.num 7)] = none
  ∧ unflattenObject [(['a'], JVal.num 5), (['a', '.', 'b'], JVal.num 7)]
      ≠ some [(['a'], JVal.obj [(['b'], JVal.num 7)])] := by
  constructor
  · simp [unflattenObject, splitDot, splitOnChar, setPath, getKey, insertJS, falsy, List.find?]
  · simp [unflattenObject, splitDot, splitOnChar, setPath, getKey, insertJS, falsy, List.find?]

/-- C4 amended: on a colliding pair the behaviour of `unflattenObject`
depends on the earlier value at the conflicting node. A later key
assigning directly at the node always overwrites (last-write-wins); a
later key that implies structure under the node wins when the earlier
value is falsy (`0`, `""`, `false`, `null`), merges into an earlier
object, and on an earlier truthy primitive the walk throws a strict-mode
`TypeError` instead of replacing. -/
theorem unflatten_collision_policy (v w : JVal) :
    (falsy v = true →
      unflattenObject [(['a'], v), (['a', '.', 'b'], w)]
        = some [(['a'], JVal.obj [(['b'], w)])])
  ∧ (∀ sub, v = JVal.obj sub →
      unflattenObject [(['a'], v), (['a', '.', 'b'], w)]
        = some [(['a'], JVal.obj (insertJS sub ['b'] w))])
  ∧ (isPrim v = true → falsy v = false →
      unflattenObject [(['a'], v), (['a', '.', 'b'], w)] = none)
  ∧ unflattenObject [(['a', '.', 'b'], w), (['a'], v)] = some [(['a'], v)] := by
  refine ⟨?_, ?_, ?_, ?_⟩
  · intro hf
    cases v <;>
      simp_all [unflattenObject, splitDot, splitOnChar, setPath, getKey, insertJS, falsy,
        List.find?]
  · intro sub hv
    subst hv
    simp [unflattenObject, splitDot, splitOnChar, setPath, getKey, insertJS, falsy, List.find?]
  · intro hp hf
    cases v <;>
      simp_all [unflattenObject, splitDot, splitOnChar, setPath, getKey, insertJS, falsy,
        isPrim, List.find?]
  · cases v <;>
      simp [unflattenObject, splitDot, splitOnChar, setPath, getKey, insertJS, falsy, List.find?]

/-- Witness for `unflatten_collision_policy` at concrete inputs: a falsy
earlier value is replaced, a truthy scalar earlier value throws, and a
direct later assignment overwrites. -/
theorem unflatten_collision_policy_witness :
    unflattenObject [(['a'], JVal.num 0), (['a', '.', 'b'], JVal.num 7)]
      = some [(['a'], JVal.obj [(['b'], JVal.num 7)])]
  ∧ unflattenObject [(['a'], JVal.obj [(['c'], JVal.num 1)]), (['a', '.', 'b'], JVal.num 7)]
      = some [(['a'], JVal.obj (insertJS [(['c'], JVal.num 1)] ['b'] (JVal.num 7)))]
  ∧ unflattenObject [(['a'], JVal.num 5), (['a', '.', 'b'], JVal.num 7)] = none
  ∧ unflattenObject [(['a', '.', 'b'], JVal.num 7), (['a'], JVal.num 9)]
      = some [(['a'], JVal.num 9)] :=
  ⟨(unflatten_collision_policy (JVal.num 0) (JVal.num 7)).1 (by decide),
   (unflatten_collision_policy (JVal.obj [(['c'], JVal.num 1)]) (JVal.num 7)).2.1
     [(['c'], JVal.num 1)] rfl,
   (unflatten_collision_policy (JVal.num 5) (JVal.num 7)).2.2.1 (by decide) (by decide),
   (unflatten_collision_policy (JVal.num 9) (JVal.num 7)).2.2.2⟩

/-- C1 counterexample: the record `{a: {}}` has no `'.'` in any key, yet
flatten drops the empty nested record entirely, so unflatten of the
flattened output returns the empty record, not the original. -/
theorem roundtrip_counterexample :
    noDotFields [(['a'], JVal.obj [])] = true
  ∧ unflattenObject (flattenObject [(['a'], JVal.obj [])] []) = some []
  ∧ some ([] : List (Key × JVal)) ≠ some [(['a'], JVal.obj [])] := by
  refine ⟨?_, ?_, by simp⟩
  · simp [noDotFields, noDotKey]
  · simp [flattenObject, flattenGo, assignAll, unflattenObject]

/-! ## Heuristic text structuring -/

theorem foldl_push_map (l : List Key) (init : List Key) :
    l.foldl (fun md line => md ++ [lineOut line]) init = init ++ l.map lineOut := by
  induction l generalizing init with
  | nil => simp
  | cons a l IH => simp [IH]

theorem structureText_lines (text name : Key) :
    structureText text name
      = List.intercalate ['\n']
          (('#' :: ' ' :: name) :: [] :: ("Converted from text file").data :: [] ::
            (splitNl text).map lineOut) := by
  simp only [structureText]
  rw [foldl_push_map]
  simp

theorem splitOnChar_not_mem (sep : Char) (s : Key) (h : sep ∉ s) :
    splitOnChar sep s = [s] := by
  induction s with
  | nil => rfl
  | cons c rest IH =>
    have hc : ¬ c = sep := fun hcs => h (hcs ▸ List.mem_cons_self c rest)
    have hr : sep ∉ rest := fun hm => h (List.mem_cons_of_mem c hm)
    simp [splitOnChar, hc, IH hr]

/-- C8: the TXT→Markdown structuring transform is a total function of the
input text; on the empty string it emits the heading, the provenance
line and blank separators only, and an input with no newline contributes
exactly one further output line. -/
theorem structureText_total :
    (∀ name, structureText [] name
        = ('#' :: ' ' :: name) ++ '\n' :: '\n' :: ("Converted from text file").data ++ ['\n', '\n'])
  ∧ (∀ text name, '\n' ∉ text → structureText text name
        = ('#' :: ' ' :: name) ++ '\n' :: '\n' :: ("Converted from text file").data ++
            '\n' :: '\n' :: lineOut text) := by
  constructor
  · intro name
    rw [structureText_lines]
    simp [splitNl, splitOnChar, lineOut, trimJ, List.intercalate]
  · intro text name h
    rw [structureText_lines]
    have : splitNl text = [text] := splitOnChar_not_mem '\n' text h
    rw [this]
    simp [List.intercalate]

/-- Witness for `structureText_total`: the single line `"Title"` has no
newline and is emitted as a subheading after the header block. -/
theorem structureText_total_witness :
    structureText ['T', 'i', 't', 'l', 'e'] ['n']
      = ('#' :: ' ' :: ['n']) ++ '\n' :: '\n' :: ("Converted from text file").data ++
          '\n' :: '\n' :: lineOut ['T', 'i', 't', 'l', 'e'] :=
  structureText_total.2 ['T', 'i', 't', 'l', 'e'] ['n'] (by decide)

/-- C7 counterexample: the source line `"hi "` contains a space, so by the
claimed three-way predicate it should be emitted verbatim; the code trims
the line first and emits the subheading `"## hi"` instead. -/
theorem line_classification_counterexample :
    structureText ['h', 'i', ' '] ['n']
      = ('#' :: ' ' :: ['n']) ++ '\n' :: '\n' :: ("Converted from text file").data ++
          '\n' :: '\n' :: '#' :: '#' :: ' ' :: ['h', 'i']
  ∧ (['h', 'i', ' '].contains ' ') = true
  ∧ lineOut ['h', 'i', ' '] ≠ ['h', 'i', ' '] := by
  refine ⟨?_, by decide, by decide⟩
  rw [(structureText_total).2 ['h', 'i', ' '] ['n'] (by decide)]
  simp [lineOut, trimJ, labelLine, endsTerm]

/-- C7 amended: each source line is first trimmed; one output line is
emitted per source line, and a non-blank trimmed line becomes the
subheading `"## " ++ trimmed` exactly when the label predicate (length
below 60, no terminal `.`/`!`/`?`, no space) holds of the trimmed line,
and the trimmed line itself otherwise — the bullet branch of the source
emits the same text as the final else branch. -/
theorem line_classification (line : Key) (h : trimJ line ≠ []) :
    (labelLine (trimJ line) = true ∧ lineOut line = '#' :: '#' :: ' ' :: trimJ line)
  ∨ (labelLine (trimJ line) = false ∧ lineOut line = trimJ line) := by
  by_cases hl : labelLine (trimJ line) = true
  · exact Or.inl ⟨hl, by simp [lineOut, h, hl]⟩
  · refine Or.inr ⟨by simpa using hl, ?_⟩
    by_cases hb : bulletStart (trimJ line) = true <;> simp [lineOut, h, hl, hb]

/-- Witness for `line_classification` at the concrete line `" Title "`:
trimmed to `"Title"`, which is a label line. -/
theorem line_classification_witness :
    (labelLine (trimJ [' ', 'T', 'i', 't', 'l', 'e', ' ']) = true ∧
      lineOut [' ', 'T', 'i', 't', 'l', 'e', ' ']
        = '#' :: '#' :: ' ' :: trimJ [' ', 'T', 'i', 't', 'l', 'e', ' '])
  ∨ (labelLine (trimJ [' ', 'T', 'i', 't', 'l', 'e', ' ']) = false ∧
      lineOut [' ', 'T', 'i', 't', 'l', 'e', ' '] = trimJ [' ', 'T', 'i', 't', 'l', 'e', ' ']) :=
  line_classification [' ', 'T', 'i', 't', 'l', 'e', ' '] (by decide)

/-! ## Dispatcher and pipeline claims -/

theorem mimeTypes_none_of_not_whitelist (k : Key) (h : k ∉ outputWhitelist) :
    mimeTypes k = none := by
  simp only [outputWhitelist, List.mem_cons, not_or] at h
  obtain ⟨h1, h2, h3, h4, h5, h6, h7, h8, h9, _⟩ := h
  simp [mimeTypes, h1, h2, h3, h4, h5, h6, h7, h8, h9]

theorem unsupported_ne_pairMsg (e o : Key) : unsupportedOutputMsg ≠ pairMsg e o := by
  intro h
  have hd := congrArg String.data h
  simp only [pairMsg, unsupportedOutputMsg, String.data_append] at hd
  simp at hd

/-- C5: a requested output kind whose case-normalized form is outside
the whitelist is rejected with the dedicated `Unsupported output type`
error, the response does not depend on the payload bytes (none are
consumed), and this rejection is distinct from every possible "no
pipeline for this pair" message. -/
theorem whitelist_gate (ext : Externals) (now : Nat) (req : ConversionRequest)
    (h : toLowerK req.outputTypeRaw ∉ outputWhitelist) :
    postModel ext now (some req) = .clientError unsupportedOutputMsg
  ∧ (∀ bytes2, postModel ext now (some ⟨req.fileName, req.fileMime, req.outputTypeRaw, bytes2⟩)
      = .clientError unsupportedOutputMsg)
  ∧ (∀ e o, unsupportedOutputMsg ≠ pairMsg e o) := by
  have hm : mimeTypes (toLowerK req.outputTypeRaw) = none := mimeTypes_none_of_not_whitelist _ h
  refine ⟨?_, fun bytes2 => ?_, unsupported_ne_pairMsg⟩
  · simp [postModel, hm]
  · simp [postModel, hm]

/-- Witness for `whitelist_gate`: requesting `xml` is rejected by the
whitelist gate. -/
theorem whitelist_gate_witness :
    postModel trivialExt 0 (some ⟨"a.csv".data, "text/csv".data, "xml".data, []⟩)
      = .clientError unsupportedOutputMsg :=
  (whitelist_gate trivialExt 0 ⟨"a.csv".data, "text/csv".data, "xml".data, []⟩ (by decide)).1

/-- C6 counterexample: suffix matching in the dispatcher is
case-sensitive — `DATA.CSV` with requested kind `json` falls through to
the "no pipeline for this pair" rejection while `data.csv` resolves the
CSV→JSON pipeline and succeeds. -/
theorem dispatch_case_sensitive_counterexample :
    postModel trivialExt 0 (some ⟨"DATA.CSV".data, "text/csv".data, "json".data, []⟩)
      = .clientError (pairMsg "csv".data "json".data)
  ∧ postModel trivialExt 0 (some ⟨"data.csv".data, "text/csv".data, "json".data, []⟩)
      = .success (.text "") "application/json; charset=utf-8" "data-converted-0.json" :=
  ⟨by decide, by decide⟩

/-- C6 amended: the source kind is determined from the filename suffix
case-sensitively (only the image-extension regex is case-insensitive),
and the declared MIME type is consulted only through the predicate
`MIME starts with "image/"` — two requests that agree on that predicate
and on everything except the MIME string produce identical results. -/
theorem mime_only_image_family (ext : Externals) (now : Nat) (name m1 m2 out : Key)
    (bytes : List Nat)
    (h : startsWithK m1 "image/".data = startsWithK m2 "image/".data) :
    postModel ext now (some ⟨name, m1, out, bytes⟩)
      = postModel ext now (some ⟨name, m2, out, bytes⟩) := by
  simp only [postModel, convertBody]
  rw [h]

/-- Witness for `mime_only_image_family`: two non-image MIME strings
give the same result for a TXT→Markdown request. -/
theorem mime_only_image_family_witness :
    postModel trivialExt 0 (some ⟨"x.txt".data, "text/plain".data, "md".data, []⟩)
      = postModel trivialExt 0 (some ⟨"x.txt".data, "application/json".data, "md".data, []⟩) :=
  mime_only_image_family trivialExt 0 "x.txt".data "text/plain".data
    "application/json".data "md".data [] (by decide)

/-- C9: with the external codec capabilities fixed (each library call a
function of its input), the response of the POST handler is a function
of the request alone up to the timestamp-bearing suggested filename —
the payload and content type are byte-identical across calls at
different times. -/
theorem deterministic_modulo_timestamp (ext : Externals) (n1 n2 : Nat)
    (req : Option ConversionRequest) :
    stripFilename (postModel ext n1 req) = stripFilename (postModel ext n2 req) := by
  cases req with
  | none => rfl
  | some r =>
    simp only [postModel]
    split
    · rfl
    · cases h : convertBody ext r (toLowerK r.outputTypeRaw) r.bytes <;> simp [h, stripFilename]

/-- C2 counterexample: when the PDF extraction capability throws, the
pipeline returns a 200 Success attachment whose payload is the error
report — not a Failure response as claimed. -/
theorem pdf_error_counterexample :
    postModel pdfErrExt 0 (some ⟨"doc.pdf".data, "application/pdf".data, "txt".data, []⟩)
      = .success (.text (pdfErrorReport "bad xref")) "text/plain; charset=utf-8"
          "doc-converted-0.txt" := by decide

/-- C2 amended: when the PDF extraction capability itself throws, the
best-effort pipeline returns a Success (a 200 attachment), not a
Failure, and its payload is the diagnostic report carrying the raw
error message together with the fixed lists of likely causes and
suggested alternative actions; the payload is never whitespace-only. -/
theorem pdf_error_is_success (ext : Externals) (now : Nat) (name mime : Key)
    (bytes : List Nat) (msg : String)
    (hname : endsWithK name ".pdf".data = true)
    (herr : ext.pdfParse bytes = .error msg) :
    postModel ext now (some ⟨name, mime, "txt".data, bytes⟩)
      = .success (.text (pdfErrorReport msg)) "text/plain; charset=utf-8"
          (suggestedFilename name now "txt".data)
  ∧ pdfErrorReport msg = pdfErrorPre ++ msg ++ pdfErrorPost
  ∧ (pdfErrorReport msg).data.any (fun c => !c.isWhitespace) = true := by
  refine ⟨?_, rfl, ?_⟩
  · have hlow : toLowerK "txt".data = "txt".data := by decide
    simp only [postModel, hlow]
    rw [if_neg (by decide)]
    simp [convertBody, hname, herr, extractPdfText,
      (show (("txt".data : Key) == "md".data) = false by decide),
      (show ((mimeTypes "txt".data).getD "") = "text/plain; charset=utf-8" by decide)]
  · simp [pdfErrorReport, String.data_append, List.any_append]
    exact Or.inl (by decide)

/-- Witness for `pdf_error_is_success` with a concrete throwing
extraction capability. -/
theorem pdf_error_is_success_witness :
    postModel pdfErrExt 5 (some ⟨"file.pdf".data, "application/pdf".data, "txt".data, []⟩)
      = .success (.text (pdfErrorReport "bad xref")) "text/plain; charset=utf-8"
          (suggestedFilename "file.pdf".data 5 "txt".data) :=
  (pdf_error_is_success pdfErrExt 5 "file.pdf".data "application/pdf".data [] "bad xref"
    (by decide) rfl).1

/-- C3: a structurally valid PDF whose extracted text is empty after
trimming produces a Success whose payload is the fixed diagnostic
report — which spells out the page count and the byte size in KB and is
not whitespace-only — never a Failure and never an empty payload. -/
theorem pdf_empty_is_success (ext : Externals) (now : Nat) (name mime : Key)
    (bytes : List Nat) (text : String) (pages : Nat)
    (hname : endsWithK name ".pdf".data = true)
    (hok : ext.pdfParse bytes = .ok (text, pages))
    (hempty : text.trim = "") :
    postModel ext now (some ⟨name, mime, "txt".data, bytes⟩)
      = .success (.text (pdfEmptyReport pages bytes.length)) "text/plain; charset=utf-8"
          (suggestedFilename name now "txt".data)
  ∧ pdfEmptyReport pages bytes.length
      = pdfEmptyReportPre ++ toString pages ++ pdfEmptyReportMid ++
          kbString bytes.length ++ pdfEmptyReportPost
  ∧ (pdfEmptyReport pages bytes.length).data.any (fun c => !c.isWhitespace) = true := by
  refine ⟨?_, rfl, ?_⟩
  · have hlow : toLowerK "txt".data = "txt".data := by decide
    simp only [postModel, hlow]
    rw [if_neg (by decide)]
    simp [convertBody, hname, hok, extractPdfText, hempty,
      (show (("txt".data : Key) == "md".data) = false by decide),
      (show ((mimeTypes "txt".data).getD "") = "text/plain; charset=utf-8" by decide)]
  · simp [pdfEmptyReport, String.data_append, List.any_append]
    exact Or.inl (by decide)

/-- Witness for `pdf_empty_is_success` with a concrete extraction
capability that finds no text on a 3-page document. -/
theorem pdf_empty_is_success_witness :
    postModel pdfEmptyExt 0 (some ⟨"scan.pdf".data, "application/pdf".data, "txt".data, []⟩)
      = .success (.text (pdfEmptyReport 3 0)) "text/plain; charset=utf-8"
          (suggestedFilename "scan.pdf".data 0 "txt".data) :=
  (pdf_empty_is_success pdfEmptyExt 0 "scan.pdf".data "application/pdf".data [] "" 3
    (by decide) rfl (by simp [String.trim, Substring.trim, Substring.trimLeft,
      Substring.trimRight, Substring.takeWhileAux, Substring.takeRightWhileAux,
      Substring.toString, String.toSubstring, String.extract])).1

/-! ## The round-trip law: supporting lemmas -/

theorem keysOf_append (l1 l2 : List (Key × JVal)) :
    keysOf (l1 ++ l2) = keysOf l1 ++ keysOf l2 := by
  simp [keysOf]

theorem any_keys_false {l : List (Key × JVal)} {k : Key} (h : k ∉ keysOf l) :
    (l.any (fun p => p.1 == k)) = false := by
  rw [List.any_eq_false]
  intro p hp
  simp only [beq_iff_eq]
  intro he
  exact h (he ▸ List.mem_map_of_mem (·.1) hp)

theorem not_mem_keysOf_of_any {rest : List (Key × JVal)} {k : Key}
    (h : rest.any (fun p => p.1 == k) = false) : k ∉ keysOf rest := by
  rw [List.any_eq_false] at h
  intro hm
  rw [keysOf, List.mem_map] at hm
  obtain ⟨p, hp, he⟩ := hm
  exact h p hp (by simp [he])

theorem insertJS_fresh {l : List (Key × JVal)} {k : Key} (v : JVal) (h : k ∉ keysOf l) :
    insertJS l k v = l ++ [(k, v)] := by
  simp [insertJS, any_keys_false h]

theorem insertJS_update_last {acc : List (Key × JVal)} {k : Key} (x v : JVal)
    (h : k ∉ keysOf acc) :
    insertJS (acc ++ [(k, x)]) k v = acc ++ [(k, v)] := by
  simp only [insertJS]
  rw [if_pos]
  · rw [List.map_append]
    congr 1
    · conv_rhs => rw [show acc = acc.map id from (List.map_id acc).symm]
      apply List.map_congr_left
      intro p hp
      rw [if_neg]
      · rfl
      · simp only [beq_iff_eq]
        intro he
        exact h (he ▸ List.mem_map_of_mem (·.1) hp)
    · simp
  · simp [List.any_append]

theorem getKey_none {l : List (Key × JVal)} {k : Key} (h : k ∉ keysOf l) :
    getKey l k = none := by
  have : l.find? (fun p => p.1 == k) = none := by
    rw [List.find?_eq_none]
    intro p hp
    simp only [beq_iff_eq]
    intro he
    exact h (he ▸ List.mem_map_of_mem (·.1) hp)
  simp [getKey, this]

theorem getKey_last {acc : List (Key × JVal)} {k : Key} (x : JVal) (h : k ∉ keysOf acc) :
    getKey (acc ++ [(k, x)]) k = some x := by
  induction acc with
  | nil => simp [getKey, List.find?]
  | cons p acc IH =>
    have hk : ¬(p.1 == k) = true := by
      simp only [beq_iff_eq]
      intro he
      exact h (by simp [keysOf, he])
    have h2 : k ∉ keysOf acc := fun hm => h (by simp [keysOf] at hm ⊢; exact Or.inr hm)
    simpa [getKey, List.find?, hk] using IH h2

theorem assignAll_fresh {src dst : List (Key × JVal)}
    (hd : ∀ a ∈ keysOf src, a ∉ keysOf dst) (hs : (keysOf src).Nodup) :
    assignAll dst src = dst ++ src := by
  induction src generalizing dst with
  | nil => simp [assignAll]
  | cons p src IH =>
    obtain ⟨k, v⟩ := p
    have hstep : assignAll dst ((k, v) :: src) = assignAll (insertJS dst k v) src := rfl
    rw [hstep, insertJS_fresh v (hd k (by simp [keysOf]))]
    simp only [keysOf, List.map_cons, List.nodup_cons] at hs
    have IH2 := @IH (dst ++ [(k, v)]) ?_ hs.2
    · simpa using IH2
    · intro a ha
      rw [keysOf_append]
      simp only [List.mem_append]
      push_neg
      refine ⟨hd a ?_, ?_⟩
      · show a ∈ keysOf ((k, v) :: src)
        simp only [keysOf, List.map_cons]
        exact List.mem_cons_of_mem _ ha
      · simp only [keysOf, List.map]
        intro hm
        simp at hm
        exact hs.1 (hm ▸ ha)

theorem splitOnChar_ne_nil (sep : Char) (s : Key) : splitOnChar sep s ≠ [] := by
  induction s with
  | nil => simp [splitOnChar]
  | cons c rest IH =>
    by_cases hc : c = sep
    · simp [splitOnChar, hc]
    · cases h : splitOnChar sep rest with
      | nil => exact absurd h IH
      | cons a as => simp [splitOnChar, hc, h]

theorem splitOnChar_append (sep : Char) (s t : Key) (h : sep ∉ s) :
    splitOnChar sep (s ++ sep :: t) = s :: splitOnChar sep t := by
  induction s with
  | nil => simp [splitOnChar]
  | cons c s IH =>
    have hc : ¬ c = sep := fun e => h (e ▸ List.mem_cons_self _ _)
    have hs : sep ∉ s := fun m => h (List.mem_cons_of_mem _ m)
    have hx : splitOnChar sep ((c :: s) ++ sep :: t) =
        match splitOnChar sep (s ++ sep :: t) with
        | x :: ss => (c :: x) :: ss
        | [] => [[c]] := by
      simp [splitOnChar, hc]
    rw [hx, IH hs]

theorem noDotKey_not_mem {k : Key} (h : noDotKey k = true) : '.' ∉ k := by
  intro hm
  have hc : k.contains '.' = true := by
    simpa [List.contains] using List.elem_eq_true_of_mem hm
  simp [noDotKey, hc] at h
  exact h hm

theorem joinSegs_cons (k : Key) (p : List Key) (hp : p ≠ []) :
    joinSegs (k :: p) = k ++ '.' :: joinSegs p := by
  cases p with
  | nil => contradiction
  | cons a as => rfl

theorem joinSegs_append (P p : List Key) (hP : P ≠ []) (hp : p ≠ []) :
    joinSegs (P ++ p) = joinSegs P ++ '.' :: joinSegs p := by
  induction P with
  | nil => contradiction
  | cons k P IH =>
    cases P with
    | nil => simp [joinSegs_cons k p hp, joinSegs]
    | cons b bs =>
      have h1 : (b :: bs : List Key) ≠ [] := by simp
      rw [List.cons_append, joinSegs_cons k ((b :: bs) ++ p) (by simp), IH h1,
        joinSegs_cons k (b :: bs) h1]
      simp [List.append_assoc]

theorem goodSegs_cons {k : Key} {p : List Key} :
    goodSegs (k :: p) = true ↔ (k ≠ [] ∧ noDotKey k = true) ∧ goodSegs p = true := by
  simp [goodSegs, List.all_cons, Bool.and_eq_true, decide_eq_true_eq]

theorem goodSegs_append {P p : List Key} :
    goodSegs (P ++ p) = true ↔ goodSegs P = true ∧ goodSegs p = true := by
  simp [goodSegs, List.all_append]

theorem joinSegs_ne_nil {P : List Key} (h : goodSegs P = true) (hne : P ≠ []) :
    joinSegs P ≠ [] := by
  cases P with
  | nil => contradiction
  | cons k P =>
    have hk : k ≠ [] := (goodSegs_cons.1 h).1.1
    cases P with
    | nil => simpa [joinSegs] using hk
    | cons b bs => simp [joinSegs_cons k (b :: bs) (by simp), hk]

theorem splitDot_joinSegs {p : List Key} (h : goodSegs p = true) (hne : p ≠ []) :
    splitDot (joinSegs p) = p := by
  induction p with
  | nil => contradiction
  | cons k p IH =>
    obtain ⟨⟨hk, hnd⟩, hp⟩ := goodSegs_cons.1 h
    cases p with
    | nil =>
      show splitOnChar '.' (joinSegs [k]) = [k]
      simp only [joinSegs]
      exact splitOnChar_not_mem '.' k (noDotKey_not_mem hnd)
    | cons b bs =>
      rw [joinSegs_cons k (b :: bs) (by simp)]
      show splitOnChar '.' (k ++ '.' :: joinSegs (b :: bs)) = k :: b :: bs
      rw [splitOnChar_append '.' k _ (noDotKey_not_mem hnd)]
      have := IH hp (by simp)
      rw [show splitOnChar '.' (joinSegs (b :: bs)) = splitDot (joinSegs (b :: bs)) from rfl, this]

theorem goodFields_cons {k : Key} {v : JVal} {rest : List (Key × JVal)}
    (h : goodFields ((k, v) :: rest) = true) :
    k ≠ [] ∧ noDotKey k = true ∧ k ∉ keysOf rest ∧ goodFields rest = true ∧
    ∀ sub, v = JVal.obj sub → sub ≠ [] ∧ goodFields sub = true := by
  cases v with
  | obj sub0 =>
    simp only [goodFields, Bool.and_eq_true, decide_eq_true_eq, Bool.not_eq_true'] at h
    refine ⟨h.1.1.1.1, h.1.1.1.2, not_mem_keysOf_of_any h.1.1.2, h.2, ?_⟩
    intro sub hv
    cases hv
    exact ⟨by simpa [List.isEmpty_iff] using h.1.2.1, h.1.2.2⟩
  | str s =>
    simp only [goodFields, Bool.and_eq_true, decide_eq_true_eq, Bool.not_eq_true'] at h
    exact ⟨h.1.1.1.1, h.1.1.1.2, not_mem_keysOf_of_any h.1.1.2, h.2,
      fun sub hv => absurd hv (by simp)⟩
  | num n =>
    simp only [goodFields, Bool.and_eq_true, decide_eq_true_eq, Bool.not_eq_true'] at h
    exact ⟨h.1.1.1.1, h.1.1.1.2, not_mem_keysOf_of_any h.1.1.2, h.2,
      fun sub hv => absurd hv (by simp)⟩
  | bool b =>
    simp only [goodFields, Bool.and_eq_true, decide_eq_true_eq, Bool.not_eq_true'] at h
    exact ⟨h.1.1.1.1, h.1.1.1.2, not_mem_keysOf_of_any h.1.1.2, h.2,
      fun sub hv => absurd hv (by simp)⟩
  | null =>
    simp only [goodFields, Bool.and_eq_true, decide_eq_true_eq, Bool.not_eq_true'] at h
    exact ⟨h.1.1.1.1, h.1.1.1.2, not_mem_keysOf_of_any h.1.1.2, h.2,
      fun sub hv => absurd hv (by simp)⟩
  | arr xs =>
    simp only [goodFields, Bool.and_eq_true, decide_eq_true_eq, Bool.not_eq_true'] at h
    exact ⟨h.1.1.1.1, h.1.1.1.2, not_mem_keysOf_of_any h.1.1.2, h.2,
      fun sub hv => absurd hv (by simp)⟩

theorem pvs_path_ne_nil (fields : List (Key × JVal)) :
    ∀ q ∈ pvs fields, q.1 ≠ [] := by
  induction fields with
  | nil => simp [pvs]
  | cons p rest IH =>
    obtain ⟨k, v⟩ := p
    intro q hq
    cases v <;> simp only [pvs, List.mem_append, List.mem_map, List.mem_singleton] at hq <;>
      rcases hq with h | h
    case obj.inl =>
      obtain ⟨q', _, rfl⟩ := h
      simp
    case obj.inr => exact IH q h
    all_goals first
      | (subst h; simp)
      | exact IH q h

theorem pvs_head_key (fields : List (Key × JVal)) :
    ∀ q ∈ pvs fields, ∃ a t, q.1 = a :: t ∧ a ∈ keysOf fields := by
  induction fields with
  | nil => simp [pvs]
  | cons p rest IH =>
    obtain ⟨k, v⟩ := p
    intro q hq
    cases v <;> simp only [pvs, List.mem_append, List.mem_map, List.mem_singleton] at hq
    case obj sub =>
      rcases hq with ⟨q', _, rfl⟩ | h
      · exact ⟨k, q'.1, rfl, by simp [keysOf]⟩
      · obtain ⟨a, t, he, hm⟩ := IH q h
        refine ⟨a, t, he, ?_⟩
        simp only [keysOf, List.map_cons, List.mem_cons]
        exact Or.inr hm
    all_goals
      first
      | (rcases hq with rfl | h
         · exact ⟨k, [], rfl, by simp [keysOf]⟩
         · obtain ⟨a, t, he, hm⟩ := IH q h
           refine ⟨a, t, he, ?_⟩
           simp only [keysOf, List.map_cons, List.mem_cons]
           exact Or.inr hm)

theorem pvs_good : ∀ (fields : List (Key × JVal)), goodFields fields = true →
    ∀ q ∈ pvs fields, goodSegs q.1 = true
  | [], _ => by simp [pvs]
  | (k, v) :: rest, hg => by
    obtain ⟨hk, hnd, _, hrest, hobj⟩ := goodFields_cons hg
    intro q hq
    cases v with
    | obj sub =>
      simp only [pvs, List.mem_append, List.mem_map] at hq
      rcases hq with ⟨q', hq', rfl⟩ | h
      · have := pvs_good sub (hobj sub rfl).2 q' hq'
        simp [goodSegs_cons, hk, hnd, this]
      · exact pvs_good rest hrest q h
    | str s =>
      simp only [pvs, List.mem_append, List.mem_singleton] at hq
      rcases hq with rfl | h
      · simp [goodSegs_cons, goodSegs, hk, hnd]
      · exact pvs_good rest hrest q h
    | num n =>
      simp only [pvs, List.mem_append, List.mem_singleton] at hq
      rcases hq with rfl | h
      · simp [goodSegs_cons, goodSegs, hk, hnd]
      · exact pvs_good rest hrest q h
    | bool b =>
      simp only [pvs, List.mem_append, List.mem_singleton] at hq
      rcases hq with rfl | h
      · simp [goodSegs_cons, goodSegs, hk, hnd]
      · exact pvs_good rest hrest q h
    | null =>
      simp only [pvs, List.mem_append, List.mem_singleton] at hq
      rcases hq with rfl | h
      · simp [goodSegs_cons, goodSegs, hk, hnd]
      · exact pvs_good rest hrest q h
    | arr xs =>
      simp only [pvs, List.mem_append, List.mem_singleton] at hq
      rcases hq with rfl | h
      · simp [goodSegs_cons, goodSegs, hk, hnd]
      · exact pvs_good rest hrest q h
termination_by fields => sizeOf fields
decreasing_by
  all_goals simp_wf
  all_goals subst_vars
  all_goals simp_arith

theorem pvs_ne_nil : ∀ (fields : List (Key × JVal)), goodFields fields = true →
    fields ≠ [] → pvs fields ≠ []
  | [], _, hne => absurd rfl hne
  | (k, v) :: rest, hg, _ => by
    obtain ⟨_, _, _, _, hobj⟩ := goodFields_cons hg
    cases v with
    | obj sub =>
      have := pvs_ne_nil sub (hobj sub rfl).2 (hobj sub rfl).1
      simp only [pvs]
      intro hc
      rcases List.append_eq_nil.mp hc with ⟨hmap, _⟩
      exact this (List.map_eq_nil_iff.mp hmap)
    | str s => simp [pvs]
    | num n => simp [pvs]
    | bool b => simp [pvs]
    | null => simp [pvs]
    | arr xs => simp [pvs]
termination_by fields _ _ => sizeOf fields
decreasing_by
  all_goals simp_wf
  all_goals subst_vars
  all_goals simp_arith

theorem pvs_pairwise : ∀ (fields : List (Key × JVal)), goodFields fields = true →
    List.Pairwise (fun a b => a.1 ≠ b.1) (pvs fields)
  | [], _ => by simp [pvs]
  | (k, v) :: rest, hg => by
    obtain ⟨hk, hnd, hkm, hrest, hobj⟩ := goodFields_cons hg
    have hrec := pvs_pairwise rest hrest
    have hcross : ∀ b ∈ pvs rest, ∀ ta : List Key, ¬ (k :: ta) = b.1 := by
      intro b hb ta hc
      obtain ⟨hb1, tb, hbeq, hbm⟩ := pvs_head_key rest b hb
      rw [hbeq] at hc
      have h1 : k = hb1 := by simpa using congrArg List.head? hc
      exact hkm (h1 ▸ hbm)
    cases v with
    | obj sub =>
      have hsub := pvs_pairwise sub (hobj sub rfl).2
      simp only [pvs]
      rw [List.pairwise_append]
      refine ⟨?_, hrec, ?_⟩
      · rw [List.pairwise_map]
        refine hsub.imp ?_
        intro a b hne hc
        exact hne (by simpa using hc)
      · intro a ha b hb
        obtain ⟨a', _, rfl⟩ := List.mem_map.1 ha
        intro hc
        exact hcross b hb a'.1 (by simpa using hc)
    | str s =>
      simp only [pvs, List.singleton_append]
      rw [List.pairwise_cons]
      exact ⟨fun b hb hc => hcross b hb [] (by simpa using hc), hrec⟩
    | num n =>
      simp only [pvs, List.singleton_append]
      rw [List.pairwise_cons]
      exact ⟨fun b hb hc => hcross b hb [] (by simpa using hc), hrec⟩
    | bool b0 =>
      simp only [pvs, List.singleton_append]
      rw [List.pairwise_cons]
      exact ⟨fun b hb hc => hcross b hb [] (by simpa using hc), hrec⟩
    | null =>
      simp only [pvs, List.singleton_append]
      rw [List.pairwise_cons]
      exact ⟨fun b hb hc => hcross b hb [] (by simpa using hc), hrec⟩
    | arr xs =>
      simp only [pvs, List.singleton_append]
      rw [List.pairwise_cons]
      exact ⟨fun b hb hc => hcross b hb [] (by simpa using hc), hrec⟩
termination_by fields _ => sizeOf fields
decreasing_by
  all_goals simp_wf
  all_goals subst_vars
  all_goals simp_arith

theorem setPath_prefixed (k : Key) (l : List (List Key × JVal))
    (hne : ∀ q ∈ l, q.1 ≠ []) :
    ∀ (acc s s' : List (Key × JVal)), k ∉ keysOf acc →
    List.foldlM (fun t (q : List Key × JVal) => setPath q.1 t q.2) s l = some s' →
    List.foldlM (fun t (q : List Key × JVal) => setPath q.1 t q.2)
        (acc ++ [(k, JVal.obj s)]) (l.map (fun q => (k :: q.1, q.2)))
      = some (acc ++ [(k, JVal.obj s')]) := by
  induction l with
  | nil =>
    intro acc s s' hkm h
    simp only [List.foldlM_nil, pure] at h
    cases h
    simp [List.foldlM_nil, pure]
  | cons q l IH =>
    intro acc s s' hkm h
    rw [List.foldlM_cons] at h
    obtain ⟨s1, hq, hrest⟩ := Option.bind_eq_some.1 h
    obtain ⟨a, t, haq⟩ : ∃ a t, q.1 = a :: t := by
      cases hq1 : q.1 with
      | nil => exact absurd hq1 (hne q (List.mem_cons_self _ _))
      | cons a t => exact ⟨a, t, rfl⟩
    rw [List.map_cons, List.foldlM_cons]
    have hstep : setPath (k :: q.1) (acc ++ [(k, JVal.obj s)]) q.2
        = some (acc ++ [(k, JVal.obj s1)]) := by
      rw [haq]
      rw [haq] at hq
      simp only [setPath, getKey_last (JVal.obj s) hkm, hq, Option.map_some']
      rw [insertJS_update_last (JVal.obj s) (JVal.obj s1) hkm]
    simp only [hstep, Option.some_bind]
    exact IH (fun q' hq' => hne q' (List.mem_cons_of_mem _ hq')) acc s1 s' hkm hrest

theorem pvs_cons_obj (k : Key) (sub rest : List (Key × JVal)) :
    pvs ((k, JVal.obj sub) :: rest)
      = (pvs sub).map (fun q => (k :: q.1, q.2)) ++ pvs rest := by
  simp [pvs]

theorem pvs_cons_not_obj (k : Key) (v : JVal) (rest : List (Key × JVal))
    (h : ∀ sub, v ≠ JVal.obj sub) :
    pvs ((k, v) :: rest) = ([k], v) :: pvs rest := by
  cases v with
  | obj sub => exact absurd rfl (h sub)
  | str s => simp [pvs]
  | num n => simp [pvs]
  | bool b => simp [pvs]
  | null => simp [pvs]
  | arr xs => simp [pvs]

theorem unflatten_rebuild : ∀ (fields : List (Key × JVal)), goodFields fields = true →
    ∀ (acc : List (Key × JVal)), (∀ a ∈ keysOf fields, a ∉ keysOf acc) →
    List.foldlM (fun t (q : List Key × JVal) => setPath q.1 t q.2) acc (pvs fields)
      = some (acc ++ fields)
  | [], _ => by
    intro acc _
    simp [pvs, pure]
  | (k, v) :: rest, hg => by
    intro acc hdisj
    obtain ⟨hk, hnd, hkm, hrest, hobj⟩ := goodFields_cons hg
    have hkacc : k ∉ keysOf acc := hdisj k (by simp [keysOf])
    have hdisjx : ∀ (w : JVal), ∀ a ∈ keysOf rest, a ∉ keysOf (acc ++ [(k, w)]) := by
      intro w a ha
      rw [keysOf_append]
      simp only [List.mem_append]
      push_neg
      refine ⟨hdisj a ?_, ?_⟩
      · simp only [keysOf, List.map_cons, List.mem_cons]
        exact Or.inr ha
      · simp only [keysOf, List.map_cons, List.map_nil, List.mem_singleton]
        intro he
        exact hkm (he ▸ ha)
    cases v with
    | obj sub =>
      obtain ⟨hsubne, hsubg⟩ := hobj sub rfl
      have hsub0 := unflatten_rebuild sub hsubg [] (by simp [keysOf])
      rw [List.nil_append] at hsub0
      obtain ⟨q0, qs, hpv⟩ : ∃ q0 qs, pvs sub = q0 :: qs := by
        cases hp : pvs sub with
        | nil => exact absurd hp (pvs_ne_nil sub hsubg hsubne)
        | cons a b => exact ⟨a, b, rfl⟩
      rw [hpv, List.foldlM_cons] at hsub0
      obtain ⟨s1, hq0, hqs⟩ := Option.bind_eq_some.1 hsub0
      obtain ⟨a, t, haq⟩ : ∃ a t, q0.1 = a :: t := by
        cases hq1 : q0.1 with
        | nil => exact absurd hq1 (pvs_path_ne_nil sub q0 (hpv ▸ List.mem_cons_self _ _))
        | cons a t => exact ⟨a, t, rfl⟩
      rw [pvs_cons_obj, List.foldlM_append]
      have hfirst : List.foldlM (fun t (q : List Key × JVal) => setPath q.1 t q.2) acc
          ((pvs sub).map (fun q => (k :: q.1, q.2)))
          = some (acc ++ [(k, JVal.obj sub)]) := by
        rw [hpv, List.map_cons, List.foldlM_cons]
        have hstep : setPath (k :: q0.1) acc q0.2 = some (acc ++ [(k, JVal.obj s1)]) := by
          rw [haq]
          rw [haq] at hq0
          simp only [setPath, getKey_none hkacc, hq0, Option.map_some']
          rw [insertJS_fresh _ hkacc]
        simp only [hstep, Option.some_bind]
        exact setPath_prefixed k qs
          (fun q' hq' => pvs_path_ne_nil sub q' (hpv ▸ List.mem_cons_of_mem _ hq'))
          acc s1 sub hkacc hqs
      rw [hfirst]
      show List.foldlM (fun t (q : List Key × JVal) => setPath q.1 t q.2)
          (acc ++ [(k, JVal.obj sub)]) (pvs rest) = some (acc ++ (k, JVal.obj sub) :: rest)
      rw [unflatten_rebuild rest hrest (acc ++ [(k, JVal.obj sub)]) (hdisjx _)]
      simp
    | str s =>
      rw [pvs_cons_not_obj k _ rest (by simp), List.foldlM_cons]
      simp only [setPath]
      rw [insertJS_fresh _ hkacc]
      show List.foldlM (fun t (q : List Key × JVal) => setPath q.1 t q.2)
          (acc ++ [(k, JVal.str s)]) (pvs rest) = some (acc ++ (k, JVal.str s) :: rest)
      rw [unflatten_rebuild rest hrest (acc ++ [(k, JVal.str s)]) (hdisjx _)]
      simp
    | num n =>
      rw [pvs_cons_not_obj k _ rest (by simp), List.foldlM_cons]
      simp only [setPath]
      rw [insertJS_fresh _ hkacc]
      show List.foldlM (fun t (q : List Key × JVal) => setPath q.1 t q.2)
          (acc ++ [(k, JVal.num n)]) (pvs rest) = some (acc ++ (k, JVal.num n) :: rest)
      rw [unflatten_rebuild rest hrest (acc ++ [(k, JVal.num n)]) (hdisjx _)]
      simp
    | bool b =>
      rw [pvs_cons_not_obj k _ rest (by simp), List.foldlM_cons]
      simp only [setPath]
      rw [insertJS_fresh _ hkacc]
      show List.foldlM (fun t (q : List Key × JVal) => setPath q.1 t q.2)
          (acc ++ [(k, JVal.bool b)]) (pvs rest) = some (acc ++ (k, JVal.bool b) :: rest)
      rw [unflatten_rebuild rest hrest (acc ++ [(k, JVal.bool b)]) (hdisjx _)]
      simp
    | null =>
      rw [pvs_cons_not_obj k _ rest (by simp), List.foldlM_cons]
      simp only [setPath]
      rw [insertJS_fresh _ hkacc]
      show List.foldlM (fun t (q : List Key × JVal) => setPath q.1 t q.2)
          (acc ++ [(k, JVal.null)]) (pvs rest) = some (acc ++ (k, JVal.null) :: rest)
      rw [unflatten_rebuild rest hrest (acc ++ [(k, JVal.null)]) (hdisjx _)]
      simp
    | arr xs =>
      rw [pvs_cons_not_obj k _ rest (by simp), List.foldlM_cons]
      simp only [setPath]
      rw [insertJS_fresh _ hkacc]
      show List.foldlM (fun t (q : List Key × JVal) => setPath q.1 t q.2)
          (acc ++ [(k, JVal.arr xs)]) (pvs rest) = some (acc ++ (k, JVal.arr xs) :: rest)
      rw [unflatten_rebuild rest hrest (acc ++ [(k, JVal.arr xs)]) (hdisjx _)]
      simp
termination_by fields _ => sizeOf fields
decreasing_by
  all_goals simp_wf
  all_goals subst_vars
  all_goals simp_arith

theorem flattenGo_cons_obj (k : Key) (sub rest : List (Key × JVal)) (pre : Key)
    (acc : List (Key × JVal)) :
    flattenGo ((k, JVal.obj sub) :: rest) pre acc
      = flattenGo rest pre
          (assignAll acc (flattenGo sub (if pre = [] then k else pre ++ '.' :: k) [])) := by
  simp [flattenGo]

theorem flattenGo_cons_not_obj (k : Key) (v : JVal) (rest : List (Key × JVal)) (pre : Key)
    (acc : List (Key × JVal)) (h : ∀ sub, v ≠ JVal.obj sub) :
    flattenGo ((k, v) :: rest) pre acc
      = flattenGo rest pre (insertJS acc (if pre = [] then k else pre ++ '.' :: k) v) := by
  cases v with
  | obj sub => exact absurd rfl (h sub)
  | str s => simp [flattenGo]
  | num n => simp [flattenGo]
  | bool b => simp [flattenGo]
  | null => simp [flattenGo]
  | arr xs => simp [flattenGo]

theorem flattenGo_pvs : ∀ (fields : List (Key × JVal)), goodFields fields = true →
    ∀ (P : List Key), goodSegs P = true →
    ∀ (acc : List (Key × JVal)),
    (∀ x ∈ (pvs fields).map (fun q => joinSegs (P ++ q.1)), x ∉ keysOf acc) →
    ((pvs fields).map (fun q => joinSegs (P ++ q.1))).Nodup →
    flattenGo fields (joinSegs P) acc
      = acc ++ (pvs fields).map (fun q => (joinSegs (P ++ q.1), q.2))
  | [], _ => by
    intro P _ acc _ _
    simp [pvs, flattenGo]
  | (k, v) :: rest, hg => by
    intro P hP acc hfresh hnd2
    obtain ⟨hk, hknd, hkm, hrest, hobj⟩ := goodFields_cons hg
    have hPk : goodSegs (P ++ [k]) = true := by
      rw [goodSegs_append]
      exact ⟨hP, by simp [goodSegs, hk, hknd]⟩
    have hnewKey : (if joinSegs P = [] then k else joinSegs P ++ '.' :: k)
        = joinSegs (P ++ [k]) := by
      by_cases hPe : P = []
      · subst hPe
        simp [joinSegs]
      · rw [if_neg (joinSegs_ne_nil hP hPe), joinSegs_append P [k] hPe (by simp)]
        simp [joinSegs]
    cases v
    case obj sub =>
      obtain ⟨hsubne, hsubg⟩ := hobj sub rfl
      have hsplit : (pvs ((k, JVal.obj sub) :: rest)).map (fun q => joinSegs (P ++ q.1))
          = (pvs sub).map (fun q => joinSegs ((P ++ [k]) ++ q.1))
            ++ (pvs rest).map (fun q => joinSegs (P ++ q.1)) := by
        rw [pvs_cons_obj, List.map_append, List.map_map]
        congr 1
        exact List.map_congr_left (fun q _ => by simp)
      have hsplit2 : (pvs ((k, JVal.obj sub) :: rest)).map (fun q => (joinSegs (P ++ q.1), q.2))
          = (pvs sub).map (fun q => (joinSegs ((P ++ [k]) ++ q.1), q.2))
            ++ (pvs rest).map (fun q => (joinSegs (P ++ q.1), q.2)) := by
        rw [pvs_cons_obj, List.map_append, List.map_map]
        congr 1
        exact List.map_congr_left (fun q _ => by simp)
      rw [hsplit] at hfresh hnd2
      have hndA := hnd2.of_append_left
      have hndB := hnd2.of_append_right
      have hdisjAB := List.disjoint_of_nodup_append hnd2
      have hinner := flattenGo_pvs sub hsubg (P ++ [k]) hPk [] (by simp [keysOf]) hndA
      have hkeysA : keysOf ((pvs sub).map (fun q => (joinSegs ((P ++ [k]) ++ q.1), q.2)))
          = (pvs sub).map (fun q => joinSegs ((P ++ [k]) ++ q.1)) := by
        simp [keysOf, List.map_map]
      rw [flattenGo_cons_obj, hnewKey, hinner, List.nil_append]
      have hassign : assignAll acc ((pvs sub).map (fun q => (joinSegs ((P ++ [k]) ++ q.1), q.2)))
          = acc ++ (pvs sub).map (fun q => (joinSegs ((P ++ [k]) ++ q.1), q.2)) := by
        apply assignAll_fresh
        · rw [hkeysA]
          intro a ha
          exact hfresh a (List.mem_append.2 (Or.inl ha))
        · rw [hkeysA]
          exact hndA
      rw [hassign]
      have hrec := flattenGo_pvs rest hrest P hP
        (acc ++ (pvs sub).map (fun q => (joinSegs ((P ++ [k]) ++ q.1), q.2))) ?_ hndB
      · rw [hrec, hsplit2]
        simp [List.append_assoc]
      · intro x hx
        rw [keysOf_append, hkeysA]
        simp only [List.mem_append]
        push_neg
        exact ⟨hfresh x (List.mem_append.2 (Or.inr hx)),
          fun hxa => hdisjAB hxa hx⟩
    all_goals (
      rw [pvs_cons_not_obj _ _ _ (by simp)] at hfresh hnd2 ⊢
      simp only [List.map_cons] at hfresh hnd2 ⊢
      rw [flattenGo_cons_not_obj k _ rest _ acc (by simp), hnewKey]
      rw [insertJS_fresh _ (hfresh _ (List.mem_cons_self _ _))]
      rw [flattenGo_pvs rest hrest P hP _ ?_ (List.nodup_cons.1 hnd2).2]
      · simp
      · intro x hx
        rw [keysOf_append]
        simp only [List.mem_append]
        push_neg
        refine ⟨hfresh x (List.mem_cons_of_mem _ hx), ?_⟩
        simp only [keysOf, List.map_cons, List.map_nil, List.mem_singleton]
        intro he
        exact (List.nodup_cons.1 hnd2).1 (he ▸ hx))
termination_by fields _ => sizeOf fields
decreasing_by
  all_goals simp_wf
  all_goals subst_vars
  all_goals simp_arith

theorem pvs_joined_nodup (r : List (Key × JVal)) (hg : goodFields r = true) :
    ((pvs r).map (fun q => joinSegs q.1)).Nodup := by
  have hpw := pvs_pairwise r hg
  show List.Pairwise (· ≠ ·) ((pvs r).map (fun q => joinSegs q.1))
  rw [List.pairwise_map]
  refine List.Pairwise.imp_of_mem ?_ hpw
  intro a b ha hb hne hc
  exact hne (by
    rw [← splitDot_joinSegs (pvs_good r hg a ha) (pvs_path_ne_nil r a ha),
      ← splitDot_joinSegs (pvs_good r hg b hb) (pvs_path_ne_nil r b hb), hc])

theorem foldlM_setPath_map (l : List (List Key × JVal))
    (h : ∀ q ∈ l, splitDot (joinSegs q.1) = q.1) :
    ∀ acc, List.foldlM (fun t (p : Key × JVal) => setPath (splitDot p.1) t p.2) acc
        (l.map (fun q => (joinSegs q.1, q.2)))
      = List.foldlM (fun t (q : List Key × JVal) => setPath q.1 t q.2) acc l := by
  induction l with
  | nil => intro acc; simp
  | cons q l IH =>
    intro acc
    rw [List.map_cons, List.foldlM_cons, List.foldlM_cons]
    have hq := h q (List.mem_cons_self _ _)
    dsimp only
    rw [hq]
    cases hsp : setPath q.1 acc q.2 with
    | none => rfl
    | some t0 =>
      show List.foldlM (fun t (p : Key × JVal) => setPath (splitDot p.1) t p.2) t0
          (l.map (fun q => (joinSegs q.1, q.2)))
        = List.foldlM (fun t (q : List Key × JVal) => setPath q.1 t q.2) t0 l
      exact IH (fun q' hq' => h q' (List.mem_cons_of_mem _ hq')) t0

/-- C1 amended: for every Record that is a well-formed mapping whose keys
at every nesting depth are nonempty and contain no literal `'.'`, and in
which no value is an empty nested Record, unflatten of flatten
reproduces the original Record exactly (the walk never throws, so the
result is `some r`).  Records with empty nested Records (see the
counterexample) or empty keys fall outside the law: flatten silently
drops an empty nested Record, and a top-level empty key defeats the
truthiness test on the prefix. -/
theorem flatten_unflatten_roundtrip (r : List (Key × JVal)) (h : goodFields r = true) :
    unflattenObject (flattenObject r []) = some r := by
  have hflat : flattenObject r [] = (pvs r).map (fun q => (joinSegs q.1, q.2)) := by
    have hx := flattenGo_pvs r h [] (by simp [goodSegs]) [] (by simp [keysOf])
      (by simpa using pvs_joined_nodup r h)
    simpa [flattenObject] using hx
  rw [hflat]
  unfold unflattenObject
  rw [foldlM_setPath_map _
    (fun q hq => splitDot_joinSegs (pvs_good r h q hq) (pvs_path_ne_nil r q hq))]
  have hx := unflatten_rebuild r h [] (by simp [keysOf])
  simpa using hx

/-- Witness for `flatten_unflatten_roundtrip` on a concrete two-level
record: `{a: 1, b: {c: "x", d: null}}`. -/
theorem flatten_unflatten_roundtrip_witness :
    goodFields [(['a'], JVal.num 1),
        (['b'], JVal.obj [(['c'], JVal.str "x"), (['d'], JVal.null)])] = true
  ∧ unflattenObject (flattenObject [(['a'], JVal.num 1),
        (['b'], JVal.obj [(['c'], JVal.str "x"), (['d'], JVal.null)])] [])
      = some [(['a'], JVal.num 1),
        (['b'], JVal.obj [(['c'], JVal.str "x"), (['d'], JVal.null)])] := by
  have hg : goodFields [(['a'], JVal.num 1),
      (['b'], JVal.obj [(['c'], JVal.str "x"), (['d'], JVal.null)])] = true := by
    simp [goodFields, noDotKey]
  exact ⟨hg, flatten_unflatten_roundtrip _ hg⟩
